import Mathlib

/-!
Shallow embedding of the 2-D Ising-model update kernel of
`src/CythonIsingModel.ipynb`.

The notebook contains two implementations of the same kernel:

* the pure-Python pair `ising_step` / `_ising_update` (cell 17), and
* the Cython pair `cy_ising_step` / `_cy_ising_update` (cell 25).

Modelling choices, all taken from the source:

* A lattice (a numpy 2-D `int64` array of shape `N × M`) is a total function
  `ℤ → ℤ → ℤ`.  The kernel only ever reads and writes indices produced by
  Python-semantics `%` with positive modulus, which land in `[0,N) × [0,M)`;
  Lean's `Int.emod` agrees with Python `%` there (result in `[0, b)` for
  `b > 0`), and Cython compiles `%` with Python semantics as well because the
  `cdivision` directive is not enabled in cell 25.
* In-place assignment `field[n, m] = v` is functional override (`setCell`).
* The exponential (`np.exp` in Python, `libc.math.exp` in Cython) is an
  external library function computed in floating point; it is abstracted as an
  explicit parameter `fexp : ℚ → ℚ`, and all theorems hold for every `fexp`.
* Randomness is an explicit ordered stream with a cursor: `np.random.rand()`
  draws `u k` (a rational in `[0,1)`) and advances the cursor `k`;
  the C `rand()` of the Cython version draws an integer `r k` in
  `[0, RAND_MAX]` and advances the cursor.  A branch that does not call the
  generator leaves the cursor untouched.
* The Cython `cdef float dE` is modelled as an exact rational: every value
  `dE` can take on a `{-1,+1}` lattice is an even integer in `[-16, 16]`,
  and every integer of magnitude below `2^24` is exactly representable in
  IEEE binary32 (see `float32ExactInt` and claim C9).
-/

/-- A lattice of `int64` spins, modelled as a total function on integer pairs.
Only indices in `[0,N) × [0,M)` are ever read or written by the kernel. -/
abbrev SpinGrid := ℤ → ℤ → ℤ

/-- In-place assignment `field[n, m] = v`, modelled as functional override. -/
def setCell (field : SpinGrid) (n m v : ℤ) : SpinGrid :=
  fun i j => if i = n ∧ j = m then v else field i j

/-- The neighbour-sum loop of `_ising_update` (cell 17):
`for i in range(n-1, n+2): for j in range(m-1, m+2):` skip the centre when
`i == n and j == m` (unwrapped indices), else `total += field[i % N, j % M]`. -/
def neighborSum (field : SpinGrid) (N M : ℕ) (n m : ℤ) : ℤ :=
  List.foldl
    (fun acc i =>
      List.foldl
        (fun acc2 j =>
          if i = n ∧ j = m then acc2
          else acc2 + field (i % (N : ℤ)) (j % (M : ℤ)))
        acc [m - 1, m, m + 1])
    0 [n - 1, n, n + 1]

/-- `dE = 2 * field[n, m] * total` as computed by `_ising_update`. -/
def ising_dE (field : SpinGrid) (N M : ℕ) (n m : ℤ) : ℤ :=
  2 * field n m * neighborSum field N M n m

/-- `_ising_update(field, n, m, beta)` of cell 17.  `fexp` stands for the
library function `np.exp`, `u` for the `np.random.rand()` stream, `k` for the
position of the next unconsumed draw.  Returns the mutated lattice and the new
stream position. -/
def _ising_update (fexp : ℚ → ℚ) (field : SpinGrid) (N M : ℕ) (n m : ℤ)
    (beta : ℚ) (u : ℕ → ℚ) (k : ℕ) : SpinGrid × ℕ :=
  let dE : ℤ := ising_dE field N M n m
  if dE ≤ 0 then
    (setCell field n m (field n m * -1), k)
  else if fexp (-(dE : ℚ) * beta) > u k then
    (setCell field n m (field n m * -1), k + 1)
  else
    (field, k + 1)

/-- Python `range(start, N, 2)` for `start < 2`: the ascending list
`start, start+2, …` of values below `N`. -/
def range2 (start N : ℕ) : List ℕ :=
  (List.range ((N - start + 1) / 2)).map (fun t => start + 2 * t)

/-- The sites visited by the two inner loops of `ising_step` for one fixed
parity class `(n_offset, m_offset)`:
`for n in range(n_offset, N, 2): for m in range(m_offset, M, 2)`. -/
def classSites (n_offset m_offset N M : ℕ) : List (ℕ × ℕ) :=
  (range2 n_offset N).flatMap (fun n => (range2 m_offset M).map (fun m => (n, m)))

/-- The full visit order of the four nested loops of `ising_step` (and of
`cy_ising_step`, whose loop nest is identical):
`for n_offset in range(2): for m_offset in range(2): …`. -/
def stepSites (N M : ℕ) : List (ℕ × ℕ) :=
  (List.range 2).flatMap (fun n_offset =>
    (List.range 2).flatMap (fun m_offset => classSites n_offset m_offset N M))

/-- `ising_step(field, beta)` of cell 17: apply `_ising_update` to every site
in the checkerboard order, threading the lattice and the random cursor. -/
def ising_step (fexp : ℚ → ℚ) (field : SpinGrid) (N M : ℕ) (beta : ℚ)
    (u : ℕ → ℚ) (k : ℕ) : SpinGrid × ℕ :=
  (stepSites N M).foldl
    (fun st s => _ising_update fexp st.1 N M (s.1 : ℤ) (s.2 : ℤ) beta u st.2)
    (field, k)

/-- A run of `K` sequential calls of `ising_step` on the same buffer. -/
def ising_run (fexp : ℚ → ℚ) (K : ℕ) (field : SpinGrid) (N M : ℕ) (beta : ℚ)
    (u : ℕ → ℚ) (k : ℕ) : SpinGrid × ℕ :=
  match K with
  | 0 => (field, k)
  | K + 1 =>
    let st := ising_step fexp field N M beta u k
    ising_run fexp K st.1 N M beta u st.2

/-- The neighbour-sum loop of `_cy_ising_update` (cell 25); textually the same
loop as in `_ising_update`, with C `int` locals.  Cython keeps Python `%`
semantics here (no `cdivision` directive), and `total` stays in `[-8, 8]` on a
`{-1,+1}` lattice, far from `int` overflow. -/
def cy_neighborSum (field : SpinGrid) (N M : ℕ) (n m : ℤ) : ℤ :=
  List.foldl
    (fun acc i =>
      List.foldl
        (fun acc2 j =>
          if i = n ∧ j = m then acc2
          else acc2 + field (i % (N : ℤ)) (j % (M : ℤ)))
        acc [m - 1, m, m + 1])
    0 [n - 1, n, n + 1]

/-- `cdef float dE = 2 * field[n, m] * total` of `_cy_ising_update`: the
product is computed in integers and then converted to binary32; it is modelled
as an exact rational (see `float32ExactInt`). -/
def cy_ising_dE (field : SpinGrid) (N M : ℕ) (n m : ℤ) : ℚ :=
  ((2 * field n m * cy_neighborSum field N M n m : ℤ) : ℚ)

/-- `_cy_ising_update(field, n, m, beta)` of cell 25.  `fexp` stands for the
libc `exp`, `rand_max` for the C constant `RAND_MAX`, `r` for the C `rand()`
stream (integers in `[0, rand_max]`), `k` for the cursor.  The probabilistic
branch tests `exp(-dE * beta) * RAND_MAX > rand()`. -/
def _cy_ising_update (fexp : ℚ → ℚ) (rand_max : ℤ) (field : SpinGrid)
    (N M : ℕ) (n m : ℤ) (beta : ℚ) (r : ℕ → ℤ) (k : ℕ) : SpinGrid × ℕ :=
  let dE : ℚ := cy_ising_dE field N M n m
  if dE ≤ 0 then
    (setCell field n m (field n m * -1), k)
  else if fexp (-dE * beta) * (rand_max : ℚ) > ((r k : ℤ) : ℚ) then
    (setCell field n m (field n m * -1), k + 1)
  else
    (field, k + 1)

/-- `cy_ising_step(field, beta)` of cell 25: same loop nest as `ising_step`,
calling `_cy_ising_update` at each site. -/
def cy_ising_step (fexp : ℚ → ℚ) (rand_max : ℤ) (field : SpinGrid) (N M : ℕ)
    (beta : ℚ) (r : ℕ → ℤ) (k : ℕ) : SpinGrid × ℕ :=
  (stepSites N M).foldl
    (fun st s => _cy_ising_update fexp rand_max st.1 N M (s.1 : ℤ) (s.2 : ℤ) beta r st.2)
    (field, k)

/-- A run of `K` sequential calls of `cy_ising_step` on the same buffer. -/
def cy_ising_run (fexp : ℚ → ℚ) (rand_max : ℤ) (K : ℕ) (field : SpinGrid)
    (N M : ℕ) (beta : ℚ) (r : ℕ → ℤ) (k : ℕ) : SpinGrid × ℕ :=
  match K with
  | 0 => (field, k)
  | K + 1 =>
    let st := cy_ising_step fexp rand_max field N M beta r k
    cy_ising_run fexp rand_max K st.1 N M beta r st.2

/-- A well-formed lattice: every in-range cell holds `+1` or `-1`. -/
def wellFormed (field : SpinGrid) (N M : ℕ) : Prop :=
  ∀ i j : ℤ, 0 ≤ i → i < (N : ℤ) → 0 ≤ j → j < (M : ℤ) →
    field i j = 1 ∨ field i j = -1

/-- Modelled from the spec: every site of an `N × M` lattice in increasing
row-major order (n ascending, then m ascending). -/
def rowMajorSites (N M : ℕ) : List (ℕ × ℕ) :=
  (List.range N).flatMap (fun n => (List.range M).map (fun m => (n, m)))

/-- Modelled from the spec: the sites of parity class `(p, q)` visited in
increasing row-major order, written as the row-major enumeration filtered to
the class. -/
def specClassSites (p q N M : ℕ) : List (ℕ × ℕ) :=
  (rowMajorSites N M).filter (fun s => s.1 % 2 = p ∧ s.2 % 2 = q)

/-- Modelled from the spec: the 8 neighbour offsets `{-1,0,+1} × {-1,0,+1}`
minus the centre. -/
def neighborOffsets : List (ℤ × ℤ) :=
  ((([-1, 0, 1] : List ℤ).flatMap
      (fun di => ([-1, 0, 1] : List ℤ).map (fun dj => (di, dj)))).filter
    (fun d => ¬(d.1 = 0 ∧ d.2 = 0)))

/-- Modelled from the spec: the sum of the 8 cells at offsets
`{-1,0,+1} × {-1,0,+1}` around `(n, m)` excluding the centre, each coordinate
wrapped modulo `N` (row) and modulo `M` (column). -/
def specNeighborSum (field : SpinGrid) (N M : ℕ) (n m : ℤ) : ℤ :=
  (neighborOffsets.map
    (fun d => field ((n + d.1) % (N : ℤ)) ((m + d.2) % (M : ℤ)))).sum

/-- Sufficient criterion for exact representability of an integer in IEEE
binary32: magnitude at most `2^24` (the significand has 24 bits). -/
def float32ExactInt (z : ℤ) : Prop := z.natAbs ≤ 2 ^ 24

/-- Modelled from the spec/claim: `(i2, j2)` is one of the 8 wrapped
neighbours of `(i1, j1)` on the `N × M` torus. -/
def isWrappedNeighbor (N M : ℕ) (i1 j1 i2 j2 : ℤ) : Prop :=
  ∃ d ∈ neighborOffsets,
    i2 = (i1 + d.1) % (N : ℤ) ∧ j2 = (j1 + d.2) % (M : ℤ)

/-- A minimal allocation model, to express buffer identity: `bufs c` is the
contents of buffer number `c`; buffers below `next` are allocated. -/
structure Store where
  bufs : ℕ → SpinGrid
  next : ℕ

/-- Overwrite the contents of buffer `b`. -/
def writeBuf (st : Store) (b : ℕ) (f : SpinGrid) : Store :=
  { bufs := fun c => if c = b then f else st.bufs c, next := st.next }

/-- `ising_step` at the buffer level: the Python function mutates the numpy
array `field` in place and ends with `return field`, handing back the very
object it was given. -/
def ising_step_buf (fexp : ℚ → ℚ) (st : Store) (b : ℕ) (N M : ℕ)
    (beta : ℚ) (u : ℕ → ℚ) (k : ℕ) : Store × ℕ × ℕ :=
  let res := ising_step fexp (st.bufs b) N M beta u k
  (writeBuf st b res.1, b, res.2)

/-- `cy_ising_step` at the buffer level: the Cython function mutates the
caller's buffer in place through the typed memoryview `field`, but its final
statement is `return np.array(field)`; `np.array` copies by default, so a
fresh buffer holding a copy of the mutated data is allocated and that fresh
buffer is returned. -/
def cy_ising_step_buf (fexp : ℚ → ℚ) (rand_max : ℤ) (st : Store) (b : ℕ)
    (N M : ℕ) (beta : ℚ) (r : ℕ → ℤ) (k : ℕ) : Store × ℕ × ℕ :=
  let res := cy_ising_step fexp rand_max (st.bufs b) N M beta r k
  ({ bufs := fun c => if c = st.next then res.1 else (writeBuf st b res.1).bufs c,
     next := st.next + 1 },
   st.next, res.2)

lemma count_eq_one_of_nodup_mem {α : Type} [BEq α] [LawfulBEq α] (a : α)
    (l : List α) (h : l.Nodup) (hm : a ∈ l) : l.count a = 1 := by
  induction l with
  | nil => simp at hm
  | cons b l ih =>
    rw [List.nodup_cons] at h
    rcases List.mem_cons.1 hm with rfl | hmem
    · rw [List.count_cons_self, List.count_eq_zero.2 h.1]
    · rw [List.count_cons_of_ne, ih h.2 hmem]
      rintro rfl
      exact h.1 hmem

lemma filter_flatMap_eq {α β : Type} (rows : List α) (f : α → List β)
    (pr : β → Bool) :
    (rows.flatMap f).filter pr = rows.flatMap (fun n => (f n).filter pr) := by
  induction rows with
  | nil => rfl
  | cons a rows ih => simp [List.flatMap_cons, List.filter_append, ih]

lemma flatMap_congr_mem {α β : Type} (rows : List α) (f g : α → List β)
    (h : ∀ a ∈ rows, f a = g a) : rows.flatMap f = rows.flatMap g := by
  induction rows with
  | nil => rfl
  | cons a rows ih =>
    simp only [List.flatMap_cons, h a (by simp),
      ih (fun a ha => h a (by simp [ha]))]

lemma flatMap_ite_filter {α β : Type} (rows : List α) (pb : α → Bool)
    (g : α → List β) :
    rows.flatMap (fun n => if pb n then g n else []) =
      (rows.filter pb).flatMap g := by
  induction rows with
  | nil => rfl
  | cons a rows ih =>
    by_cases h : pb a <;> simp [List.flatMap_cons, List.filter_cons, h, ih]

lemma filter_pair_map {α β : Type} (l : List β) (n : α) (pr : α × β → Bool) :
    (l.map (fun m => (n, m))).filter pr =
      (l.filter (fun m => pr (n, m))).map (fun m => (n, m)) := by
  induction l with
  | nil => rfl
  | cons b l ih =>
    by_cases h : pr (n, b) <;> simp [List.filter_cons, h, ih]

lemma mem_range2 {p N x : ℕ} (hp : p < 2) :
    x ∈ range2 p N ↔ x < N ∧ x % 2 = p := by
  simp only [range2, List.mem_map, List.mem_range]
  constructor
  · rintro ⟨t, ht, rfl⟩
    omega
  · intro h
    exact ⟨(x - p) / 2, by omega, by omega⟩

lemma range2_eq_filter (p N : ℕ) (hp : p < 2) :
    range2 p N = (List.range N).filter (fun x => x % 2 = p) := by
  induction N with
  | zero =>
    have h0 : (0 - p + 1) / 2 = 0 := by omega
    simp [range2, h0]
  | succ N ih =>
    have hstep : range2 p (N + 1) =
        range2 p N ++ (if N % 2 = p then [N] else []) := by
      by_cases h : N % 2 = p
      · have hlen : (N + 1 - p + 1) / 2 = (N - p + 1) / 2 + 1 := by omega
        have hval : p + 2 * ((N - p + 1) / 2) = N := by omega
        simp [range2, hlen, List.range_succ, h, hval]
      · have hlen : (N + 1 - p + 1) / 2 = (N - p + 1) / 2 := by omega
        simp [range2, hlen, h]
    rw [hstep, ih, List.range_succ, List.filter_append]
    by_cases h : N % 2 = p <;> simp [h]

lemma range2_nodup (p N : ℕ) : (range2 p N).Nodup := by
  refine List.Nodup.map ?_ (List.nodup_range _)
  intro a b hab
  simp at hab
  omega

lemma mem_classSites {p q N M a b : ℕ} (hp : p < 2) (hq : q < 2) :
    (a, b) ∈ classSites p q N M ↔ a < N ∧ a % 2 = p ∧ b < M ∧ b % 2 = q := by
  simp only [classSites, List.mem_flatMap, List.mem_map]
  constructor
  · rintro ⟨n, hn, m, hm, heq⟩
    simp only [Prod.mk.injEq] at heq
    obtain ⟨rfl, rfl⟩ := heq
    rw [mem_range2 hp] at hn
    rw [mem_range2 hq] at hm
    tauto
  · rintro ⟨h1, h2, h3, h4⟩
    exact ⟨a, (mem_range2 hp).2 ⟨h1, h2⟩, b, (mem_range2 hq).2 ⟨h3, h4⟩, rfl⟩

lemma classSites_nodup (p q N M : ℕ) : (classSites p q N M).Nodup := by
  refine List.nodup_flatMap.2 ⟨?_, ?_⟩
  · intro n _
    refine List.Nodup.map ?_ (range2_nodup q M)
    intro a b hab
    simpa using hab
  · refine (range2_nodup p N).imp ?_
    intro a b hne s hs1 hs2
    simp only [List.mem_map] at hs1 hs2
    obtain ⟨m1, _, rfl⟩ := hs1
    obtain ⟨m2, _, h⟩ := hs2
    simp only [Prod.mk.injEq] at h
    exact hne h.1.symm

lemma classSites_eq_spec (p q N M : ℕ) (hp : p < 2) (hq : q < 2) :
    classSites p q N M = specClassSites p q N M := by
  unfold specClassSites rowMajorSites
  rw [filter_flatMap_eq]
  have step1 : ∀ n ∈ List.range N,
      ((List.range M).map (fun m => (n, m))).filter
          (fun s => decide (s.1 % 2 = p ∧ s.2 % 2 = q)) =
        (if decide (n % 2 = p) then
            ((List.range M).filter (fun x => x % 2 = q)).map (fun m => (n, m))
          else []) := by
    intro n _
    rw [filter_pair_map]
    by_cases h : n % 2 = p <;> simp [h]
  rw [flatMap_congr_mem _ _ _ step1, flatMap_ite_filter,
    ← range2_eq_filter p N hp]
  unfold classSites
  rw [range2_eq_filter q M hq]

lemma stepSites_eq_append (N M : ℕ) :
    stepSites N M =
      classSites 0 0 N M ++ classSites 0 1 N M ++
        classSites 1 0 N M ++ classSites 1 1 N M := by
  simp [stepSites, List.range_succ, List.append_assoc]

lemma mem_stepSites {N M a b : ℕ} :
    (a, b) ∈ stepSites N M ↔ a < N ∧ b < M := by
  rw [stepSites_eq_append]
  simp only [List.mem_append,
    mem_classSites (p := 0) (q := 0) (by omega) (by omega),
    mem_classSites (p := 0) (q := 1) (by omega) (by omega),
    mem_classSites (p := 1) (q := 0) (by omega) (by omega),
    mem_classSites (p := 1) (q := 1) (by omega) (by omega)]
  omega

lemma stepSites_nodup (N M : ℕ) : (stepSites N M).Nodup := by
  rw [stepSites_eq_append]
  have hdis : ∀ p q r s : ℕ, p < 2 → q < 2 → r < 2 → s < 2 →
      (p, q) ≠ (r, s) →
      List.Disjoint (classSites p q N M) (classSites r s N M) := by
    intro p q r s hp hq hr hs hne x hx1 hx2
    obtain ⟨a, b⟩ := x
    rw [mem_classSites hp hq] at hx1
    rw [mem_classSites hr hs] at hx2
    apply hne
    have : p = r ∧ q = s := by omega
    simp [this.1, this.2]
  refine List.Nodup.append (List.Nodup.append
    (List.Nodup.append (classSites_nodup 0 0 N M) (classSites_nodup 0 1 N M)
      (hdis 0 0 0 1 (by omega) (by omega) (by omega) (by omega) (by decide)))
    (classSites_nodup 1 0 N M) ?_) (classSites_nodup 1 1 N M) ?_
  · intro x hx1 hx2
    rcases List.mem_append.1 hx1 with h | h
    · exact hdis 0 0 1 0 (by omega) (by omega) (by omega) (by omega)
        (by decide) h hx2
    · exact hdis 0 1 1 0 (by omega) (by omega) (by omega) (by omega)
        (by decide) h hx2
  · intro x hx1 hx2
    rcases List.mem_append.1 hx1 with h | h
    · rcases List.mem_append.1 h with h2 | h2
      · exact hdis 0 0 1 1 (by omega) (by omega) (by omega) (by omega)
          (by decide) h2 hx2
      · exact hdis 0 1 1 1 (by omega) (by omega) (by omega) (by omega)
          (by decide) h2 hx2
    · exact hdis 1 0 1 1 (by omega) (by omega) (by omega) (by omega)
        (by decide) h hx2

lemma count_stepSites {N M a b : ℕ} (ha : a < N) (hb : b < M) :
    (stepSites N M).count (a, b) = 1 :=
  count_eq_one_of_nodup_mem (a, b) _ (stepSites_nodup N M)
    (mem_stepSites.2 ⟨ha, hb⟩)

lemma neighborSum_eq (field : SpinGrid) (N M : ℕ) (n m : ℤ) :
    neighborSum field N M n m =
      field ((n - 1) % (N : ℤ)) ((m - 1) % (M : ℤ)) +
      field ((n - 1) % (N : ℤ)) (m % (M : ℤ)) +
      field ((n - 1) % (N : ℤ)) ((m + 1) % (M : ℤ)) +
      field (n % (N : ℤ)) ((m - 1) % (M : ℤ)) +
      field (n % (N : ℤ)) ((m + 1) % (M : ℤ)) +
      field ((n + 1) % (N : ℤ)) ((m - 1) % (M : ℤ)) +
      field ((n + 1) % (N : ℤ)) (m % (M : ℤ)) +
      field ((n + 1) % (N : ℤ)) ((m + 1) % (M : ℤ)) := by
  have h1 : ((n - 1 : ℤ) = n) = False := by simp
  have h2 : ((n + 1 : ℤ) = n) = False := by simp
  have h3 : ((m - 1 : ℤ) = m) = False := by simp
  have h4 : ((m + 1 : ℤ) = m) = False := by simp
  simp only [neighborSum, List.foldl_cons, List.foldl_nil, h1, h2, h3, h4,
    false_and, and_false, and_self, if_false, if_true, eq_self_iff_true,
    true_and]
  ring

lemma cy_neighborSum_eq_neighborSum : cy_neighborSum = neighborSum := rfl

lemma neighborSum_eq_spec (field : SpinGrid) (N M : ℕ) (n m : ℤ) :
    neighborSum field N M n m = specNeighborSum field N M n m := by
  have hoff : neighborOffsets =
      [(-1, -1), (-1, 0), (-1, 1), (0, -1), (0, 1), (1, -1), (1, 0), (1, 1)] := by
    decide
  rw [neighborSum_eq]
  simp only [specNeighborSum, hoff, List.map_cons, List.map_nil, List.sum_cons,
    List.sum_nil]
  have e1 : n + (-1 : ℤ) = n - 1 := by ring
  have e2 : m + (-1 : ℤ) = m - 1 := by ring
  have e3 : n + (0 : ℤ) = n := by ring
  have e4 : m + (0 : ℤ) = m := by ring
  rw [e1, e2, e3, e4]
  ring

lemma cell_bounds {field : SpinGrid} {N M : ℕ} (hwf : wellFormed field N M)
    (hN : 0 < (N : ℤ)) (hM : 0 < (M : ℤ)) (x y : ℤ) :
    -1 ≤ field (x % (N : ℤ)) (y % (M : ℤ)) ∧
      field (x % (N : ℤ)) (y % (M : ℤ)) ≤ 1 := by
  have hx1 : 0 ≤ x % (N : ℤ) := Int.emod_nonneg x (by omega)
  have hx2 : x % (N : ℤ) < (N : ℤ) := Int.emod_lt_of_pos x hN
  have hy1 : 0 ≤ y % (M : ℤ) := Int.emod_nonneg y (by omega)
  have hy2 : y % (M : ℤ) < (M : ℤ) := Int.emod_lt_of_pos y hM
  rcases hwf _ _ hx1 hx2 hy1 hy2 with h | h <;> omega

lemma neighborSum_bounds {field : SpinGrid} {N M : ℕ}
    (hwf : wellFormed field N M) (hN : 0 < (N : ℤ)) (hM : 0 < (M : ℤ))
    (n m : ℤ) :
    -8 ≤ neighborSum field N M n m ∧ neighborSum field N M n m ≤ 8 := by
  rw [neighborSum_eq]
  have b1 := cell_bounds hwf hN hM (n - 1) (m - 1)
  have b2 := cell_bounds hwf hN hM (n - 1) m
  have b3 := cell_bounds hwf hN hM (n - 1) (m + 1)
  have b4 := cell_bounds hwf hN hM n (m - 1)
  have b5 := cell_bounds hwf hN hM n (m + 1)
  have b6 := cell_bounds hwf hN hM (n + 1) (m - 1)
  have b7 := cell_bounds hwf hN hM (n + 1) m
  have b8 := cell_bounds hwf hN hM (n + 1) (m + 1)
  omega

lemma ising_dE_bounds {field : SpinGrid} {N M : ℕ}
    (hwf : wellFormed field N M) (n m : ℤ) (hn1 : 0 ≤ n) (hn2 : n < (N : ℤ))
    (hm1 : 0 ≤ m) (hm2 : m < (M : ℤ)) :
    -16 ≤ ising_dE field N M n m ∧ ising_dE field N M n m ≤ 16 := by
  have hN : 0 < (N : ℤ) := by omega
  have hM : 0 < (M : ℤ) := by omega
  have hb := neighborSum_bounds hwf hN hM n m
  have hc := hwf n m hn1 hn2 hm1 hm2
  unfold ising_dE
  rcases hc with h | h <;> rw [h] <;> omega

lemma setCell_same (field : SpinGrid) (n m v : ℤ) :
    setCell field n m v n m = v := by
  simp [setCell]

lemma setCell_other {n m i j : ℤ} (field : SpinGrid) (v : ℤ)
    (h : ¬(i = n ∧ j = m)) : setCell field n m v i j = field i j := by
  simp [setCell, h]

lemma _ising_update_le {fexp : ℚ → ℚ} {field : SpinGrid} {N M : ℕ} {n m : ℤ}
    {beta : ℚ} {u : ℕ → ℚ} {k : ℕ} (h : ising_dE field N M n m ≤ 0) :
    _ising_update fexp field N M n m beta u k =
      (setCell field n m (field n m * -1), k) := by
  simp only [_ising_update]
  rw [if_pos h]

lemma _ising_update_gt_flip {fexp : ℚ → ℚ} {field : SpinGrid} {N M : ℕ}
    {n m : ℤ} {beta : ℚ} {u : ℕ → ℚ} {k : ℕ}
    (h : 0 < ising_dE field N M n m)
    (hacc : fexp (-(ising_dE field N M n m : ℚ) * beta) > u k) :
    _ising_update fexp field N M n m beta u k =
      (setCell field n m (field n m * -1), k + 1) := by
  simp only [_ising_update]
  rw [if_neg (by omega), if_pos hacc]

lemma _ising_update_gt_noflip {fexp : ℚ → ℚ} {field : SpinGrid} {N M : ℕ}
    {n m : ℤ} {beta : ℚ} {u : ℕ → ℚ} {k : ℕ}
    (h : 0 < ising_dE field N M n m)
    (hacc : ¬ fexp (-(ising_dE field N M n m : ℚ) * beta) > u k) :
    _ising_update fexp field N M n m beta u k = (field, k + 1) := by
  simp only [_ising_update]
  rw [if_neg (by omega), if_neg hacc]

lemma cy_ising_dE_eq (field : SpinGrid) (N M : ℕ) (n m : ℤ) :
    cy_ising_dE field N M n m = ((ising_dE field N M n m : ℤ) : ℚ) := rfl

lemma _cy_ising_update_le {fexp : ℚ → ℚ} {rand_max : ℤ} {field : SpinGrid}
    {N M : ℕ} {n m : ℤ} {beta : ℚ} {r : ℕ → ℤ} {k : ℕ}
    (h : ising_dE field N M n m ≤ 0) :
    _cy_ising_update fexp rand_max field N M n m beta r k =
      (setCell field n m (field n m * -1), k) := by
  simp only [_cy_ising_update]
  rw [if_pos]
  rw [cy_ising_dE_eq]
  exact_mod_cast h

lemma _cy_ising_update_gt_flip {fexp : ℚ → ℚ} {rand_max : ℤ} {field : SpinGrid}
    {N M : ℕ} {n m : ℤ} {beta : ℚ} {r : ℕ → ℤ} {k : ℕ}
    (h : 0 < ising_dE field N M n m)
    (hacc : fexp (-(cy_ising_dE field N M n m) * beta) * (rand_max : ℚ) >
      ((r k : ℤ) : ℚ)) :
    _cy_ising_update fexp rand_max field N M n m beta r k =
      (setCell field n m (field n m * -1), k + 1) := by
  simp only [_cy_ising_update]
  rw [if_neg, if_pos hacc]
  rw [cy_ising_dE_eq]
  exact_mod_cast (by omega : ¬ (ising_dE field N M n m : ℤ) ≤ 0)

lemma _cy_ising_update_gt_noflip {fexp : ℚ → ℚ} {rand_max : ℤ}
    {field : SpinGrid} {N M : ℕ} {n m : ℤ} {beta : ℚ} {r : ℕ → ℤ} {k : ℕ}
    (h : 0 < ising_dE field N M n m)
    (hacc : ¬ fexp (-(cy_ising_dE field N M n m) * beta) * (rand_max : ℚ) >
      ((r k : ℤ) : ℚ)) :
    _cy_ising_update fexp rand_max field N M n m beta r k = (field, k + 1) := by
  simp only [_cy_ising_update]
  rw [if_neg, if_neg hacc]
  rw [cy_ising_dE_eq]
  exact_mod_cast (by omega : ¬ (ising_dE field N M n m : ℤ) ≤ 0)

lemma _ising_update_frame {fexp : ℚ → ℚ} {field : SpinGrid} {N M : ℕ}
    {n m : ℤ} {beta : ℚ} {u : ℕ → ℚ} {k : ℕ} {i j : ℤ}
    (h : ¬(i = n ∧ j = m)) :
    (_ising_update fexp field N M n m beta u k).1 i j = field i j := by
  simp only [_ising_update]
  split
  · exact setCell_other field _ h
  · split
    · exact setCell_other field _ h
    · rfl

lemma _cy_ising_update_frame {fexp : ℚ → ℚ} {rand_max : ℤ} {field : SpinGrid}
    {N M : ℕ} {n m : ℤ} {beta : ℚ} {r : ℕ → ℤ} {k : ℕ} {i j : ℤ}
    (h : ¬(i = n ∧ j = m)) :
    (_cy_ising_update fexp rand_max field N M n m beta r k).1 i j =
      field i j := by
  simp only [_cy_ising_update]
  split
  · exact setCell_other field _ h
  · split
    · exact setCell_other field _ h
    · rfl

lemma _ising_update_cell (fexp : ℚ → ℚ) (field : SpinGrid) (N M : ℕ)
    (n m : ℤ) (beta : ℚ) (u : ℕ → ℚ) (k : ℕ) :
    (_ising_update fexp field N M n m beta u k).1 n m = field n m ∨
      (_ising_update fexp field N M n m beta u k).1 n m = field n m * -1 := by
  simp only [_ising_update]
  split
  · right; exact setCell_same field n m _
  · split
    · right; exact setCell_same field n m _
    · left; rfl

lemma _cy_ising_update_cell (fexp : ℚ → ℚ) (rand_max : ℤ) (field : SpinGrid)
    (N M : ℕ) (n m : ℤ) (beta : ℚ) (r : ℕ → ℤ) (k : ℕ) :
    (_cy_ising_update fexp rand_max field N M n m beta r k).1 n m =
        field n m ∨
      (_cy_ising_update fexp rand_max field N M n m beta r k).1 n m =
        field n m * -1 := by
  simp only [_cy_ising_update]
  split
  · right; exact setCell_same field n m _
  · split
    · right; exact setCell_same field n m _
    · left; rfl

lemma _ising_update_wellFormed {fexp : ℚ → ℚ} {field : SpinGrid} {N M : ℕ}
    {n m : ℤ} {beta : ℚ} {u : ℕ → ℚ} {k : ℕ} (hwf : wellFormed field N M) :
    wellFormed (_ising_update fexp field N M n m beta u k).1 N M := by
  intro i j hi1 hi2 hj1 hj2
  by_cases h : i = n ∧ j = m
  · obtain ⟨rfl, rfl⟩ := h
    rcases _ising_update_cell fexp field N M i j beta u k with hc | hc <;>
      rw [hc]
    · exact hwf i j hi1 hi2 hj1 hj2
    · rcases hwf i j hi1 hi2 hj1 hj2 with h2 | h2 <;> simp [h2]
  · rw [_ising_update_frame h]
    exact hwf i j hi1 hi2 hj1 hj2

lemma _cy_ising_update_wellFormed {fexp : ℚ → ℚ} {rand_max : ℤ}
    {field : SpinGrid} {N M : ℕ} {n m : ℤ} {beta : ℚ} {r : ℕ → ℤ} {k : ℕ}
    (hwf : wellFormed field N M) :
    wellFormed (_cy_ising_update fexp rand_max field N M n m beta r k).1
      N M := by
  intro i j hi1 hi2 hj1 hj2
  by_cases h : i = n ∧ j = m
  · obtain ⟨rfl, rfl⟩ := h
    rcases _cy_ising_update_cell fexp rand_max field N M i j beta r k with
      hc | hc <;> rw [hc]
    · exact hwf i j hi1 hi2 hj1 hj2
    · rcases hwf i j hi1 hi2 hj1 hj2 with h2 | h2 <;> simp [h2]
  · rw [_cy_ising_update_frame h]
    exact hwf i j hi1 hi2 hj1 hj2

lemma foldl_ising_wellFormed (fexp : ℚ → ℚ) (N M : ℕ) (beta : ℚ) (u : ℕ → ℚ) :
    ∀ (sites : List (ℕ × ℕ)) (st : SpinGrid × ℕ), wellFormed st.1 N M →
      wellFormed
        ((sites.foldl
          (fun st s => _ising_update fexp st.1 N M (s.1 : ℤ) (s.2 : ℤ) beta u st.2)
          st).1) N M := by
  intro sites
  induction sites with
  | nil => intro st h; exact h
  | cons s sites ih =>
    intro st h
    rw [List.foldl_cons]
    exact ih _ (_ising_update_wellFormed h)

lemma foldl_cy_ising_wellFormed (fexp : ℚ → ℚ) (rand_max : ℤ) (N M : ℕ)
    (beta : ℚ) (r : ℕ → ℤ) :
    ∀ (sites : List (ℕ × ℕ)) (st : SpinGrid × ℕ), wellFormed st.1 N M →
      wellFormed
        ((sites.foldl
          (fun st s =>
            _cy_ising_update fexp rand_max st.1 N M (s.1 : ℤ) (s.2 : ℤ) beta r st.2)
          st).1) N M := by
  intro sites
  induction sites with
  | nil => intro st h; exact h
  | cons s sites ih =>
    intro st h
    rw [List.foldl_cons]
    exact ih _ (_cy_ising_update_wellFormed h)

lemma ising_step_wellFormed {fexp : ℚ → ℚ} {field : SpinGrid} {N M : ℕ}
    {beta : ℚ} {u : ℕ → ℚ} {k : ℕ} (h : wellFormed field N M) :
    wellFormed (ising_step fexp field N M beta u k).1 N M := by
  unfold ising_step
  exact foldl_ising_wellFormed fexp N M beta u _ _ h

lemma cy_ising_step_wellFormed {fexp : ℚ → ℚ} {rand_max : ℤ}
    {field : SpinGrid} {N M : ℕ} {beta : ℚ} {r : ℕ → ℤ} {k : ℕ}
    (h : wellFormed field N M) :
    wellFormed (cy_ising_step fexp rand_max field N M beta r k).1 N M := by
  unfold cy_ising_step
  exact foldl_cy_ising_wellFormed fexp rand_max N M beta r _ _ h

lemma ising_run_wellFormed (fexp : ℚ → ℚ) (K : ℕ) :
    ∀ (field : SpinGrid) (N M : ℕ) (beta : ℚ) (u : ℕ → ℚ) (k : ℕ),
      wellFormed field N M →
      wellFormed (ising_run fexp K field N M beta u k).1 N M := by
  induction K with
  | zero => intro field N M beta u k h; exact h
  | succ K ih =>
    intro field N M beta u k h
    exact ih _ _ _ _ _ _ (ising_step_wellFormed h)

lemma cy_ising_run_wellFormed (fexp : ℚ → ℚ) (rand_max : ℤ) (K : ℕ) :
    ∀ (field : SpinGrid) (N M : ℕ) (beta : ℚ) (r : ℕ → ℤ) (k : ℕ),
      wellFormed field N M →
      wellFormed (cy_ising_run fexp rand_max K field N M beta r k).1 N M := by
  induction K with
  | zero => intro field N M beta r k h; exact h
  | succ K ih =>
    intro field N M beta r k h
    exact ih _ _ _ _ _ _ (cy_ising_step_wellFormed h)

lemma foldl_ising_frame (fexp : ℚ → ℚ) (N M : ℕ) (beta : ℚ) (u : ℕ → ℚ) :
    ∀ (sites : List (ℕ × ℕ)) (st : SpinGrid × ℕ) (i j : ℤ),
      (∀ s ∈ sites, ¬(i = (s.1 : ℤ) ∧ j = (s.2 : ℤ))) →
      ((sites.foldl
        (fun st s => _ising_update fexp st.1 N M (s.1 : ℤ) (s.2 : ℤ) beta u st.2)
        st).1) i j = st.1 i j := by
  intro sites
  induction sites with
  | nil => intro st i j _; rfl
  | cons s sites ih =>
    intro st i j h
    rw [List.foldl_cons]
    rw [ih _ i j (fun t ht => h t (by simp [ht]))]
    exact _ising_update_frame (h s (by simp))

lemma mem_neighborOffsets {d : ℤ × ℤ} (h : d ∈ neighborOffsets) :
    -1 ≤ d.1 ∧ d.1 ≤ 1 ∧ -1 ≤ d.2 ∧ d.2 ≤ 1 ∧ ¬(d.1 = 0 ∧ d.2 = 0) := by
  fin_cases h <;> decide

lemma neighborOffsets_eq :
    neighborOffsets =
      [(-1, -1), (-1, 0), (-1, 1), (0, -1), (0, 1), (1, -1), (1, 0), (1, 1)] := by
  decide

lemma neg_one_emod_coe {N : ℕ} (h : 1 ≤ N) :
    (-1 : ℤ) % (N : ℤ) = (N : ℤ) - 1 := by
  have e : (-1 : ℤ) = ((N : ℤ) - 1) - (N : ℤ) := by ring
  rw [e, Int.emod_sub_cancel, Int.emod_eq_of_lt (by omega) (by omega)]

lemma emod_two_of_even {N : ℕ} (hN : N % 2 = 0) (x : ℤ) :
    (x % (N : ℤ)) % 2 = x % 2 :=
  Int.emod_emod_of_dvd x (by omega)

/-- C2: the evaluator computes `dE = 2 × spin(n,m) × S`, where `S` is the
spec's wrapped 8-neighbour sum, and at site `(0,0)` of an `N×M ≥ 3×3` lattice
the eight summands are exactly the wrapped cells `(N-1,M-1)`, `(N-1,0)`,
`(N-1,1)`, `(0,M-1)`, `(0,1)`, `(1,M-1)`, `(1,0)`, `(1,1)`. -/
theorem C2_dE_is_twice_spin_times_neighbor_sum (field : SpinGrid) (N M : ℕ)
    (n m : ℤ) (hN : 3 ≤ N) (hM : 3 ≤ M) :
    ising_dE field N M n m = 2 * field n m * specNeighborSum field N M n m ∧
    neighborSum field N M 0 0 =
      field ((N : ℤ) - 1) ((M : ℤ) - 1) + field ((N : ℤ) - 1) 0 +
      field ((N : ℤ) - 1) 1 + field 0 ((M : ℤ) - 1) + field 0 1 +
      field 1 ((M : ℤ) - 1) + field 1 0 + field 1 1 := by
  constructor
  · rw [ising_dE, neighborSum_eq_spec]
  · rw [neighborSum_eq]
    have eN : ((0 : ℤ) - 1) % (N : ℤ) = (N : ℤ) - 1 := by
      rw [zero_sub, neg_one_emod_coe (by omega)]
    have eM : ((0 : ℤ) - 1) % (M : ℤ) = (M : ℤ) - 1 := by
      rw [zero_sub, neg_one_emod_coe (by omega)]
    have zN : (0 : ℤ) % (N : ℤ) = 0 := Int.zero_emod _
    have zM : (0 : ℤ) % (M : ℤ) = 0 := Int.zero_emod _
    have oN : ((0 : ℤ) + 1) % (N : ℤ) = 1 := by
      rw [zero_add, Int.emod_eq_of_lt (by omega) (by omega)]
    have oM : ((0 : ℤ) + 1) % (M : ℤ) = 1 := by
      rw [zero_add, Int.emod_eq_of_lt (by omega) (by omega)]
    rw [eN, eM, zN, zM, oN, oM]

/-- Witness for C2 at `N = M = 3`, `n = m = 0`, on the all-ones lattice. -/
theorem C2_dE_is_twice_spin_times_neighbor_sum_witness :
    ising_dE (fun _ _ => 1) 3 3 0 0 =
      2 * (fun (_ _ : ℤ) => (1 : ℤ)) 0 0 *
        specNeighborSum (fun _ _ => 1) 3 3 0 0 :=
  (C2_dE_is_twice_spin_times_neighbor_sum (fun _ _ => 1) 3 3 0 0
    (by decide) (by decide)).1

/-- C3: one step folds the evaluator over `stepSites N M`; that visit order is
the four parity classes in the fixed order `(0,0), (0,1), (1,0), (1,1)`, each
class in increasing row-major order (the spec-modelled `specClassSites`), and
it contains every in-range site exactly once, so the evaluator is invoked
exactly once per site. -/
theorem C3_sweep_order (N M : ℕ) :
    stepSites N M =
      specClassSites 0 0 N M ++ specClassSites 0 1 N M ++
        specClassSites 1 0 N M ++ specClassSites 1 1 N M ∧
    ∀ a b : ℕ, a < N → b < M → (stepSites N M).count (a, b) = 1 := by
  constructor
  · rw [stepSites_eq_append,
      classSites_eq_spec 0 0 N M (by omega) (by omega),
      classSites_eq_spec 0 1 N M (by omega) (by omega),
      classSites_eq_spec 1 0 N M (by omega) (by omega),
      classSites_eq_spec 1 1 N M (by omega) (by omega)]
  · intro a b ha hb
    exact count_stepSites ha hb

/-- Witness for C3 at `N = 2`, `M = 3`, site `(1, 2)`. -/
theorem C3_sweep_order_witness : (stepSites 2 3).count (1, 2) = 1 :=
  (C3_sweep_order 2 3).2 1 2 (by decide) (by decide)

/-- C4: on a `{-1,+1}` lattice, any number of steps (of either
implementation) leaves every in-range cell in `{-1,+1}`: the only mutation is
multiplication by `-1`. -/
theorem C4_value_domain_invariant (fexp : ℚ → ℚ) (rand_max : ℤ)
    (field : SpinGrid) (N M K : ℕ) (beta : ℚ) (u : ℕ → ℚ) (r : ℕ → ℤ)
    (k k2 : ℕ) (hwf : wellFormed field N M) :
    wellFormed (ising_run fexp K field N M beta u k).1 N M ∧
    wellFormed (cy_ising_run fexp rand_max K field N M beta r k2).1 N M :=
  ⟨ising_run_wellFormed fexp K field N M beta u k hwf,
   cy_ising_run_wellFormed fexp rand_max K field N M beta r k2 hwf⟩

/-- Witness for C4: two steps on the all-ones 2×2 lattice. -/
theorem C4_value_domain_invariant_witness :
    wellFormed (ising_run (fun _ => 0) 2 (fun _ _ => 1) 2 2 (2/5)
      (fun _ => 0) 0).1 2 2 ∧
    wellFormed (cy_ising_run (fun _ => 0) 32767 2 (fun _ _ => 1) 2 2 (2/5)
      (fun _ => 0) 0).1 2 2 :=
  C4_value_domain_invariant (fun _ => 0) 32767 (fun _ _ => 1) 2 2 2 (2/5)
    (fun _ => 0) (fun _ => 0) 0 0 (fun _ _ _ _ _ _ => Or.inl rfl)

/-- C7: the step function is a deterministic function of the initial lattice
and the random stream: two `K`-step runs from pointwise-identical lattices
consuming pointwise-identical streams produce identical lattices. -/
theorem C7_determinism_given_stream (fexp : ℚ → ℚ) (K : ℕ)
    (f1 f2 : SpinGrid) (N M : ℕ) (beta : ℚ) (u1 u2 : ℕ → ℚ) (k : ℕ)
    (hf : ∀ i j, f1 i j = f2 i j) (hu : ∀ t, u1 t = u2 t) :
    ∀ i j, (ising_run fexp K f1 N M beta u1 k).1 i j =
      (ising_run fexp K f2 N M beta u2 k).1 i j := by
  have h1 : f1 = f2 := funext fun i => funext fun j => hf i j
  have h2 : u1 = u2 := funext hu
  subst h1
  subst h2
  intro i j
  rfl

/-- Witness for C7: one step on two identical 1×1 lattices with identical
streams. -/
theorem C7_determinism_given_stream_witness :
    (ising_run (fun _ => 0) 1 (fun _ _ => 1) 1 1 (2/5) (fun _ => 0) 0).1 0 0 =
    (ising_run (fun _ => 0) 1 (fun _ _ => 1) 1 1 (2/5) (fun _ => 0) 0).1 0 0 :=
  C7_determinism_given_stream (fun _ => 0) 1 (fun _ _ => 1) (fun _ _ => 1)
    1 1 (2/5) (fun _ => 0) (fun _ => 0) 0 (fun _ _ => rfl) (fun _ => rfl) 0 0

/-- C10: on a `1×M` lattice (`M ≥ 3`), all three rows of the window wrap to
row 0 while the centre test compares unwrapped indices, so the evaluator
counts each horizontal neighbour three times and the site's own spin twice:
`S = 3·spin(0,(m-1) mod M) + 3·spin(0,(m+1) mod M) + 2·spin(0,m)`. -/
theorem C10_one_row_double_counting (field : SpinGrid) (M : ℕ) (m : ℤ)
    (hM : 3 ≤ M) (hm1 : 0 ≤ m) (hm2 : m < (M : ℤ)) :
    neighborSum field 1 M 0 m =
      3 * field 0 ((m - 1) % (M : ℤ)) + 3 * field 0 ((m + 1) % (M : ℤ)) +
        2 * field 0 m := by
  rw [neighborSum_eq]
  have r1 : ((0 : ℤ) - 1) % ((1 : ℕ) : ℤ) = 0 := Int.emod_one _
  have r2 : (0 : ℤ) % ((1 : ℕ) : ℤ) = 0 := Int.emod_one _
  have r3 : ((0 : ℤ) + 1) % ((1 : ℕ) : ℤ) = 0 := Int.emod_one _
  have cm : m % (M : ℤ) = m := Int.emod_eq_of_lt hm1 hm2
  rw [r1, r2, r3, cm]
  ring

/-- Witness for C10 at `M = 3`, `m = 0`, on the all-ones row. -/
theorem C10_one_row_double_counting_witness :
    neighborSum (fun _ _ => 1) 1 3 0 0 =
      3 * (fun (_ _ : ℤ) => (1 : ℤ)) 0 ((0 - 1) % (3 : ℤ)) +
      3 * (fun (_ _ : ℤ) => (1 : ℤ)) 0 ((0 + 1) % (3 : ℤ)) +
      2 * (fun (_ _ : ℤ) => (1 : ℤ)) 0 0 :=
  C10_one_row_double_counting (fun _ _ => 1) 3 0 (by decide) (by decide)
    (by decide)

/-- C1: on a `{-1,+1}` lattice, for any beta: if `dE ≤ 0` both evaluators
flip the spin unconditionally and consume no random draw; if `dE > 0` both
advance the random cursor by exactly one and flip iff the acceptance
probability exceeds the drawn sample (for the Cython version the comparison
`exp(-dE·beta)·RAND_MAX > rand()` is equivalent to comparing against the
sample `rand()/RAND_MAX`). -/
theorem C1_metropolis_acceptance (fexp : ℚ → ℚ) (rand_max : ℤ)
    (field : SpinGrid) (N M : ℕ) (n m : ℤ) (beta : ℚ) (u : ℕ → ℚ)
    (r : ℕ → ℤ) (k : ℕ) (hwf : wellFormed field N M)
    (hn1 : 0 ≤ n) (hn2 : n < (N : ℤ)) (hm1 : 0 ≤ m) (hm2 : m < (M : ℤ))
    (hrm : 0 < rand_max) :
    (ising_dE field N M n m ≤ 0 →
      (_ising_update fexp field N M n m beta u k).2 = k ∧
      (_ising_update fexp field N M n m beta u k).1 n m = - field n m ∧
      (_cy_ising_update fexp rand_max field N M n m beta r k).2 = k ∧
      (_cy_ising_update fexp rand_max field N M n m beta r k).1 n m
        = - field n m) ∧
    (0 < ising_dE field N M n m →
      (_ising_update fexp field N M n m beta u k).2 = k + 1 ∧
      ((_ising_update fexp field N M n m beta u k).1 n m = - field n m ↔
        fexp (-(ising_dE field N M n m : ℚ) * beta) > u k) ∧
      (_cy_ising_update fexp rand_max field N M n m beta r k).2 = k + 1 ∧
      ((_cy_ising_update fexp rand_max field N M n m beta r k).1 n m
          = - field n m ↔
        fexp (-(ising_dE field N M n m : ℚ) * beta) >
          ((r k : ℤ) : ℚ) / (rand_max : ℚ))) := by
  have hspin : field n m = 1 ∨ field n m = -1 := hwf n m hn1 hn2 hm1 hm2
  have hflip : field n m * -1 = - field n m := by ring
  have hne : field n m ≠ - field n m := by
    rcases hspin with h | h <;> rw [h] <;> decide
  have hcell : setCell field n m (field n m * -1) n m = - field n m := by
    rw [setCell_same]
    exact hflip
  constructor
  · intro hle
    rw [_ising_update_le hle, _cy_ising_update_le hle]
    exact ⟨rfl, hcell, rfl, hcell⟩
  · intro hgt
    have hrmq : (0 : ℚ) < (rand_max : ℚ) := by exact_mod_cast hrm
    have hsample :
        (fexp (-(ising_dE field N M n m : ℚ) * beta) * (rand_max : ℚ) >
            ((r k : ℤ) : ℚ)) ↔
          (fexp (-(ising_dE field N M n m : ℚ) * beta) >
            ((r k : ℤ) : ℚ) / (rand_max : ℚ)) := by
      rw [gt_iff_lt, gt_iff_lt, div_lt_iff₀ hrmq]
    refine ⟨?_, ?_, ?_, ?_⟩
    · by_cases hacc : fexp (-(ising_dE field N M n m : ℚ) * beta) > u k
      · rw [_ising_update_gt_flip hgt hacc]
      · rw [_ising_update_gt_noflip hgt hacc]
    · by_cases hacc : fexp (-(ising_dE field N M n m : ℚ) * beta) > u k
      · rw [_ising_update_gt_flip hgt hacc]
        exact ⟨fun _ => hacc, fun _ => hcell⟩
      · rw [_ising_update_gt_noflip hgt hacc]
        constructor
        · intro h
          exact absurd h hne
        · intro h
          exact absurd h hacc
    · by_cases hacc : fexp (-(cy_ising_dE field N M n m) * beta) *
          (rand_max : ℚ) > ((r k : ℤ) : ℚ)
      · rw [_cy_ising_update_gt_flip hgt hacc]
      · rw [_cy_ising_update_gt_noflip hgt hacc]
    · by_cases hacc : fexp (-(cy_ising_dE field N M n m) * beta) *
          (rand_max : ℚ) > ((r k : ℤ) : ℚ)
      · rw [_cy_ising_update_gt_flip hgt hacc]
        exact ⟨fun _ => hsample.1 hacc, fun _ => hcell⟩
      · rw [_cy_ising_update_gt_noflip hgt hacc]
        constructor
        · intro h
          exact absurd h hne
        · intro h
          exact absurd (hsample.2 h) hacc

/-- Witness for C1 on the all-ones 1×1 lattice at site `(0,0)` (there
`dE = 16 > 0`): the probabilistic branch consumes exactly one draw. -/
theorem C1_metropolis_acceptance_witness :
    (_ising_update (fun _ => 0) (fun _ _ => 1) 1 1 0 0 (2/5)
      (fun _ => 0) 0).2 = 0 + 1 :=
  ((C1_metropolis_acceptance (fun _ => 0) 32767 (fun _ _ => 1) 1 1 0 0 (2/5)
    (fun _ => 0) (fun _ => 0) 0 (fun _ _ _ _ _ _ => Or.inl rfl)
    (by decide) (by decide) (by decide) (by decide) (by decide)).2
    (by decide)).1

/-- C8: one evaluator invocation at `(n, m)` changes no cell other than
`(n, m)` (both implementations), and the fold over the parity-(0,0) class --
the first pass of a step, since `stepSites = classSites 0 0 ++ …` -- leaves
every cell of odd row or odd column parity untouched. -/
theorem C8_single_cell_frame (fexp : ℚ → ℚ) (rand_max : ℤ) (field : SpinGrid)
    (N M : ℕ) (n m : ℤ) (beta : ℚ) (u : ℕ → ℚ) (r : ℕ → ℤ) (k : ℕ)
    (i j : ℤ) (hij : ¬(i = n ∧ j = m)) :
    (_ising_update fexp field N M n m beta u k).1 i j = field i j ∧
    (_cy_ising_update fexp rand_max field N M n m beta r k).1 i j =
      field i j ∧
    ∀ a b : ℕ, ¬(a % 2 = 0 ∧ b % 2 = 0) →
      ((classSites 0 0 N M).foldl
        (fun st s => _ising_update fexp st.1 N M (s.1 : ℤ) (s.2 : ℤ) beta u st.2)
        (field, k)).1 (a : ℤ) (b : ℤ) = field (a : ℤ) (b : ℤ) := by
  refine ⟨_ising_update_frame hij, _cy_ising_update_frame hij, ?_⟩
  intro a b hab
  refine foldl_ising_frame fexp N M beta u _ _ _ _ ?_
  intro s hs hcon
  obtain ⟨c, d⟩ := s
  rw [mem_classSites (by omega) (by omega)] at hs
  obtain ⟨hc1, hc2⟩ := hcon
  omega

/-- Witness for C8 on a 2×2 all-ones lattice: updating `(0,0)` leaves
`(1,1)` unchanged. -/
theorem C8_single_cell_frame_witness :
    (_ising_update (fun _ => 0) (fun _ _ => 1) 2 2 0 0 (2/5)
      (fun _ => 0) 0).1 1 1 = (fun (_ _ : ℤ) => (1 : ℤ)) 1 1 :=
  (C8_single_cell_frame (fun _ => 0) 32767 (fun _ _ => 1) 2 2 0 0 (2/5)
    (fun _ => 0) (fun _ => 0) 0 1 1 (by decide)).1

/-- C9: on a `{-1,+1}` lattice the Cython evaluator computes the same
neighbour sum and the same `dE` as the Python one (`dE` stays in `[-16,16]`,
exactly representable in binary32), and on the deterministic `dE ≤ 0` branch
both flip the spin and consume no randomness. -/
theorem C9_cython_refines_python (fexp : ℚ → ℚ) (rand_max : ℤ)
    (field : SpinGrid) (N M : ℕ) (n m : ℤ) (beta : ℚ) (u : ℕ → ℚ)
    (r : ℕ → ℤ) (k : ℕ) (hwf : wellFormed field N M)
    (hn1 : 0 ≤ n) (hn2 : n < (N : ℤ)) (hm1 : 0 ≤ m) (hm2 : m < (M : ℤ)) :
    cy_neighborSum field N M n m = neighborSum field N M n m ∧
    cy_ising_dE field N M n m = ((ising_dE field N M n m : ℤ) : ℚ) ∧
    float32ExactInt (ising_dE field N M n m) ∧
    (ising_dE field N M n m ≤ 0 →
      (_ising_update fexp field N M n m beta u k).1 n m = - field n m ∧
      (_cy_ising_update fexp rand_max field N M n m beta r k).1 n m
        = - field n m ∧
      (_ising_update fexp field N M n m beta u k).2 = k ∧
      (_cy_ising_update fexp rand_max field N M n m beta r k).2 = k) := by
  refine ⟨rfl, cy_ising_dE_eq field N M n m, ?_, ?_⟩
  · have hb := ising_dE_bounds hwf n m hn1 hn2 hm1 hm2
    unfold float32ExactInt
    omega
  · intro hle
    have hcell : setCell field n m (field n m * -1) n m = - field n m := by
      rw [setCell_same]
      ring
    rw [_ising_update_le hle, _cy_ising_update_le hle]
    exact ⟨hcell, hcell, rfl, rfl⟩

/-- Witness for C9 on the 3×3 lattice that is all `+1` except `-1` at the
centre: there `dE = -16 ≤ 0` and both evaluators flip the centre. -/
theorem C9_cython_refines_python_witness :
    float32ExactInt (ising_dE
      (fun i j => if i = 1 ∧ j = 1 then -1 else 1) 3 3 1 1) :=
  (C9_cython_refines_python (fun _ => 0) 32767
    (fun i j => if i = 1 ∧ j = 1 then -1 else 1) 3 3 1 1 (2/5)
    (fun _ => 0) (fun _ => 0) 0
    (fun i j _ _ _ _ => by by_cases h : i = 1 ∧ j = 1 <;> simp [h])
    (by decide) (by decide) (by decide) (by decide)).2.2.1

/-- C5 as stated is false: on a 3×3 lattice the sites `(0,0)` and `(0,2)`
are distinct, lie in the same parity class `(0,0)` (so they are visited in
the same sublattice pass), and each is one of the 8 wrapped neighbours of
the other (columns 0 and 2 are adjacent through the odd-width wraparound). -/
theorem C5_counterexample :
    (0, 0) ∈ classSites 0 0 3 3 ∧ (0, 2) ∈ classSites 0 0 3 3 ∧
    ((0 : ℕ), (0 : ℕ)) ≠ ((0 : ℕ), (2 : ℕ)) ∧
    isWrappedNeighbor 3 3 0 2 0 0 ∧ isWrappedNeighbor 3 3 0 0 0 2 := by
  refine ⟨by decide, by decide, by decide, ?_, ?_⟩ <;>
    (unfold isWrappedNeighbor; decide)

/-- C5 amended: when both lattice dimensions are even, two sites of the same
parity class are never wrapped neighbours of one another, so no site updated
in a pass reads a cell updated earlier in that same pass. -/
theorem C5_amended_even_dims (N M : ℕ) (hN : N % 2 = 0) (hM : M % 2 = 0)
    (p q : ℕ) (hp : p < 2) (hq : q < 2) (a b c d : ℕ)
    (h1 : (a, b) ∈ classSites p q N M) (h2 : (c, d) ∈ classSites p q N M)
    (hne : (a, b) ≠ (c, d)) :
    ¬ isWrappedNeighbor N M (a : ℤ) (b : ℤ) (c : ℤ) (d : ℤ) := by
  rw [mem_classSites hp hq] at h1 h2
  rintro ⟨dd, hdmem, hc, hd⟩
  have hc2 : (c : ℤ) % 2 = ((a : ℤ) + dd.1) % 2 := by
    rw [hc]
    exact emod_two_of_even hN _
  have hd2 : (d : ℤ) % 2 = ((b : ℤ) + dd.2) % 2 := by
    rw [hd]
    exact emod_two_of_even hM _
  have hb2 := mem_neighborOffsets hdmem
  obtain ⟨_, hap, _, hbq⟩ := h1
  obtain ⟨_, hcp, _, hdq⟩ := h2
  omega

/-- Witness for the amended C5: on a 4×4 lattice, `(0,0)` and `(0,2)` are
distinct same-class sites and are not wrapped neighbours. -/
theorem C5_amended_even_dims_witness :
    ¬ isWrappedNeighbor 4 4 0 0 0 2 :=
  C5_amended_even_dims 4 4 (by decide) (by decide) 0 0 (by decide)
    (by decide) 0 0 0 2 (by decide) (by decide) (by decide)

/-- C6 as stated is false for the Cython step: `cy_ising_step` ends with
`return np.array(field)`, which allocates a fresh buffer; the buffer number
it hands back differs from the one it was given.  Here buffer 0 is the only
allocated buffer (it holds a 1×1 all-ones lattice) and the returned buffer
number is 1, not 0. -/
theorem C6_counterexample :
    (cy_ising_step_buf (fun _ => 0) 32767 ⟨fun _ => fun _ _ => 1, 1⟩ 0 1 1
      (2/5) (fun _ => 0) 0).2.1 ≠ 0 := by
  decide

/-- C6 amended: both steps mutate the caller's buffer in place (after the
call the caller's buffer `b` holds the stepped lattice), and the Python
`ising_step` returns the very buffer it was given; but `cy_ising_step`
returns a freshly allocated buffer — equal in contents, distinct in
identity. -/
theorem C6_amended_in_place_return (fexp : ℚ → ℚ) (rand_max : ℤ) (st : Store)
    (b : ℕ) (N M : ℕ) (beta : ℚ) (u : ℕ → ℚ) (r : ℕ → ℤ) (k : ℕ)
    (hb : b < st.next) :
    (ising_step_buf fexp st b N M beta u k).2.1 = b ∧
    (ising_step_buf fexp st b N M beta u k).1.bufs b =
      (ising_step fexp (st.bufs b) N M beta u k).1 ∧
    (cy_ising_step_buf fexp rand_max st b N M beta r k).2.1 = st.next ∧
    (cy_ising_step_buf fexp rand_max st b N M beta r k).2.1 ≠ b ∧
    (cy_ising_step_buf fexp rand_max st b N M beta r k).1.bufs b =
      (cy_ising_step fexp rand_max (st.bufs b) N M beta r k).1 ∧
    (cy_ising_step_buf fexp rand_max st b N M beta r k).1.bufs st.next =
      (cy_ising_step fexp rand_max (st.bufs b) N M beta r k).1 := by
  refine ⟨rfl, ?_, rfl, ?_, ?_, ?_⟩
  · simp [ising_step_buf, writeBuf]
  · show st.next ≠ b
    omega
  · simp [cy_ising_step_buf, writeBuf, (by omega : ¬ b = st.next)]
  · simp [cy_ising_step_buf]

/-- Witness for the amended C6 on a one-buffer store holding a 1×1 lattice:
the Python step returns the buffer it was given. -/
theorem C6_amended_in_place_return_witness :
    (ising_step_buf (fun _ => 0) ⟨fun _ => fun _ _ => 1, 1⟩ 0 1 1 (2/5)
      (fun _ => 0) 0).2.1 = 0 :=
  (C6_amended_in_place_return (fun _ => 0) 32767 ⟨fun _ => fun _ _ => 1, 1⟩
    0 1 1 (2/5) (fun _ => 0) (fun _ => 0) 0 (by decide)).1

example : ((-1 : ℤ) % 3) = 2 := by decide

example : range2 0 5 = [0, 2, 4] := by decide

example : range2 1 5 = [1, 3] := by decide

example : stepSites 2 3 = [(0,0), (0,2), (0,1), (1,0), (1,2), (1,1)] := by decide

example : neighborSum (fun _ _ => 1) 3 3 0 0 = 8 := by decide
